import Mathlib

/-!
# Verification of `visor_transcripciones.py`

A shallow embedding of the transcription-viewer generator: the file pairer
(`emparejar_archivos`), the multi-encoding text reader (`leer_texto`), the
base-64 image encoder (`imagen_a_base64`), the two-layer content escaper
(`html_escape` / `texto_js`), and the page-assembly step of `generar_html`.

Conventions of the embedding:
* Text (both file names and file contents) is `List Char`; raw bytes are
  `List Nat` with each entry below 256; decoded strings are lists of Unicode
  code points (`List Nat`).
* Directories are lists of file names in enumeration order.  Paths are
  modelled by bare file names: the directory prefix is fixed per scan and
  `Path(...).stem` only looks at the final component.
* Python's `str.lower` is modelled over the ASCII range (`Char.toLower`),
  which covers every file name exercised by the program's contracts.
-/

/-! ## Named character constants

The characters central to the script-literal escaping layer, given by
code point. -/

/-- The backtick character. -/
def bq : Char := Char.ofNat 96

/-- The backslash character. -/
def bsl : Char := Char.ofNat 92

/-- The apostrophe (single quote) character. -/
def apos : Char := Char.ofNat 39

/-- The opening curly brace character. -/
def lbrace : Char := Char.ofNat 123

/-! ## Content escaper (source lines 88–90)

`html.escape` from CPython is a chain of five single-character
`str.replace` calls (`&`, `<`, `>`, `"`, `'`, in that order); the script
layer on line 90 is three further single-character replaces
(backslash, backtick, `$`, in that order). -/

/-- Python `str.replace` specialised to a single-character pattern:
each occurrence of `p` is substituted by `r`, scanning left to right and
never rescanning replaced text. -/
def replaceChar (p : Char) (r : List Char) : List Char → List Char
  | [] => []
  | c :: s => (if c = p then r else [c]) ++ replaceChar p r s

/-- The `&amp;` entity. -/
def ampEnt : List Char := ['&', 'a', 'm', 'p', ';']

/-- The `&lt;` entity. -/
def ltEnt : List Char := ['&', 'l', 't', ';']

/-- The `&gt;` entity. -/
def gtEnt : List Char := ['&', 'g', 't', ';']

/-- The `&quot;` entity. -/
def quotEnt : List Char := ['&', 'q', 'u', 'o', 't', ';']

/-- The `&#x27;` entity (CPython escapes the apostrophe numerically). -/
def aposEnt : List Char := ['&', '#', 'x', '2', '7', ';']

/-- CPython's `html.escape(s)` (with the default `quote=True`):
five single-character replaces applied in source order. -/
def html_escape (s : List Char) : List Char :=
  replaceChar apos aposEnt
    (replaceChar '"' quotEnt
      (replaceChar '>' gtEnt
        (replaceChar '<' ltEnt
          (replaceChar '&' ampEnt s))))

/-- Source line 90: the markup-escaped text is further escaped for a
backtick-delimited script string literal, replacing backslash first, then
backtick, then `$`, each with a backslash-prefixed form. -/
def texto_js (t : List Char) : List Char :=
  replaceChar '$' [bsl, '$']
    (replaceChar bq [bsl, bq]
      (replaceChar bsl [bsl, bsl] (html_escape t)))

/-- Modelled from the spec: the "unescape script-literal layer" step —
how a script engine reads a backtick-delimited string literal.  A backslash
followed by a character denotes that character (which is exact for the
escapes the generator emits: `\\`, backslash-backtick and `\$`);
every other character denotes itself. -/
def unescape_script : List Char → List Char
  | [] => []
  | [c] => [c]
  | c1 :: c2 :: rest =>
    if c1 = bsl then c2 :: unescape_script rest
    else c1 :: unescape_script (c2 :: rest)

/-- Modelled from the spec: the "render as markup" step — how a renderer
turns the five entities produced by `html_escape` back into characters;
all other characters render as themselves. -/
def unescape_markup : List Char → List Char
  | [] => []
  | c :: rest =>
    if c = '&' ∧ rest.take 4 = ['a', 'm', 'p', ';'] then
      '&' :: unescape_markup (rest.drop 4)
    else if c = '&' ∧ rest.take 3 = ['l', 't', ';'] then
      '<' :: unescape_markup (rest.drop 3)
    else if c = '&' ∧ rest.take 3 = ['g', 't', ';'] then
      '>' :: unescape_markup (rest.drop 3)
    else if c = '&' ∧ rest.take 5 = ['q', 'u', 'o', 't', ';'] then
      '"' :: unescape_markup (rest.drop 5)
    else if c = '&' ∧ rest.take 5 = ['#', 'x', '2', '7', ';'] then
      Char.ofNat 39 :: unescape_markup (rest.drop 5)
    else c :: unescape_markup rest
termination_by l => l.length
decreasing_by all_goals (simp [List.length_cons, List.length_drop]; try omega)

/-- Scanner for script-literal safety: `true` iff the string contains a
backtick or a `$` that is not consumed by a preceding escaping backslash,
or a trailing backslash that escapes nothing.  A backslash always consumes
the character after it, so a `false` result means every backslash,
backtick and `$` occurs inside a backslash escape. -/
def has_unescaped_special : List Char → Bool
  | [] => false
  | [c] => decide (c = bsl ∨ c = bq ∨ c = '$')
  | c1 :: c2 :: rest =>
    if c1 = bsl then has_unescaped_special rest
    else if c1 = bq ∨ c1 = '$' then true
    else has_unescaped_special (c2 :: rest)

/-- The characters that are structurally significant inside a
backtick-delimited script string literal: backslash, backtick and `$`. -/
def isScriptSpecial (c : Char) : Bool := decide (c = bsl ∨ c = bq ∨ c = '$')

/-! ## File pairer (source lines 49–75) -/

/-- One matched image/text unit (source lines 69–73). -/
structure PageRecord where
  nombre : List Char
  ruta_img : List Char
  ruta_txt : List Char
deriving DecidableEq, Repr

/-- POSIX glob semantics for a pattern of the form `*.ext`: the name ends
with a dot followed by `ext` (matched case-sensitively; the four
image patterns of line 53 supply the case variants), and hidden files —
names starting with a dot — are not matched by `*`. -/
def globMatch (ext : List Char) (name : List Char) : Bool :=
  !(name.head? = some '.') && ('.' :: ext).isSuffixOf name

/-- `pathlib.Path(name).stem`: drop the last suffix.  The suffix is the
part from the last dot on, provided that dot is neither the first
character (a hidden file has no suffix) nor the last (a trailing dot is
not a suffix separator). -/
def stem (name : List Char) : List Char :=
  match name.getLast? with
  | some '.' => name
  | _ =>
    match name.reverse.dropWhile (fun c => c != '.') with
    | '.' :: [] => name
    | '.' :: pre => pre.reverse
    | _ => name

/-- Python `str.lower` over the ASCII range. -/
def lowerStr (s : List Char) : List Char := s.map Char.toLower

/-- The match key of a file name: its case-folded stem (lines 55 and 62). -/
def matchKey (name : List Char) : List Char := lowerStr (stem name)

/-- Python `dict` assignment `d[k] = v`: replace the value in place if the
key is present (keeping its position), otherwise append the binding. -/
def dinsert : List (List Char × List Char) → List Char → List Char → List (List Char × List Char)
  | [], k, v => [(k, v)]
  | p :: rest, k, v => if p.1 = k then (k, v) :: rest else p :: dinsert rest k v

/-- Python `dict` lookup `d[k]` (as an `Option`; keys are unique). -/
def dget : List (List Char × List Char) → List Char → Option (List Char)
  | [], _ => none
  | p :: rest, k => if p.1 = k then some p.2 else dget rest k

/-- The keys of a dictionary, in insertion order. -/
def dkeys (d : List (List Char × List Char)) : List (List Char) := d.map Prod.fst

/-- The extension patterns tried for images (line 53), in source order. -/
def imagePats : List (List Char) :=
  ["jpg".toList, "JPG".toList, "jpeg".toList, "JPEG".toList]

/-- The extension patterns tried for texts (line 60), in source order. -/
def textPats : List (List Char) := ["txt".toList, "TXT".toList]

/-- The files of a directory listing that one `glob.glob` call returns for
pattern `*.ext`, in directory enumeration order. -/
def globFiles (ext : List Char) (files : List (List Char)) : List (List Char) :=
  files.filter (globMatch ext)

/-- All files enumerated across the patterns, in enumeration order
(the outer `for ext in …` loop concatenates the per-pattern globs). -/
def enumFiles (pats : List (List Char)) (files : List (List Char)) : List (List Char) :=
  pats.flatMap (fun ext => globFiles ext files)

/-- The dictionary built by lines 52–56 (and 59–63): for each pattern in
order, for each matching file in enumeration order, assign
`d[matchKey file] = file`. -/
def collect (pats : List (List Char)) (files : List (List Char)) :
    List (List Char × List Char) :=
  pats.foldl (fun d ext => (globFiles ext files).foldl (fun d f => dinsert d (matchKey f) f) d) []

/-- Whether a file name matches some image pattern. -/
def isImageFile (f : List Char) : Bool := imagePats.any (fun e => globMatch e f)

/-- Whether a file name matches some text pattern. -/
def isTextFile (f : List Char) : Bool := textPats.any (fun e => globMatch e f)

/-- Whether some image file of the directory has the given match key. -/
def hasImageKey (imgs : List (List Char)) (k : List Char) : Bool :=
  (enumFiles imagePats imgs).any (fun f => decide (matchKey f = k))

/-- Whether some text file of the directory has the given match key. -/
def hasTextKey (txts : List (List Char)) (k : List Char) : Bool :=
  (enumFiles textPats txts).any (fun f => decide (matchKey f = k))

/-- The number of distinct match keys present in both directories. -/
def numCommonKeys (imgs txts : List (List Char)) : Nat :=
  (((enumFiles imagePats imgs).map matchKey).dedup.filter (fun k => hasTextKey txts k)).length

/-- Python string comparison (`<=`): lexicographic by code point. -/
def listCharLe : List Char → List Char → Bool
  | [], _ => true
  | _ :: _, [] => false
  | a :: as, b :: bs => if a = b then listCharLe as bs else decide (a < b)

/-- The ordering relation used by `sorted(...)` on match keys. -/
def keyLE (a b : List Char) : Prop := listCharLe a b = true

instance : DecidableRel keyLE := fun a b => by
  unfold keyLE
  infer_instance

/-- The intersection of image keys and text keys as the source computes it
(line 66): the keys of the image dictionary that are also keys of the text
dictionary.  `sorted(set(..) & set(..))` sorts this duplicate-free list. -/
def interKeysList (imgs txts : List (List Char)) : List (List Char) :=
  (dkeys (collect imagePats imgs)).filter
    (fun k => (dget (collect textPats txts) k).isSome)

/-- Source lines 49–75: pair JPGs with TXTs by case-folded base name and
return the records in ascending key order.  `sorted` is modelled by
insertion sort, which agrees with Python's sort on the duplicate-free key
list. -/
def emparejar_archivos (imgs txts : List (List Char)) : List PageRecord :=
  let imagenes := collect imagePats imgs
  let textos := collect textPats txts
  let nombres_comunes := List.insertionSort keyLE (interKeysList imgs txts)
  nombres_comunes.map (fun n =>
    { nombre := stem ((dget imagenes n).getD [])
      ruta_img := (dget imagenes n).getD []
      ruta_txt := (dget textos n).getD [] })

/-- The image directory of the spec's pairing scenario. -/
def demoImgs : List (List Char) :=
  ["pagina_001.jpg".toList, "PAGINA_002.JPG".toList, "extra.jpg".toList]

/-- The text directory of the spec's pairing scenario. -/
def demoTxts : List (List Char) :=
  ["pagina_001.txt".toList, "pagina_002.txt".toList]

/-- The first record the scenario expects. -/
def demoRec1 : PageRecord :=
  { nombre := "pagina_001".toList
    ruta_img := "pagina_001.jpg".toList
    ruta_txt := "pagina_001.txt".toList }

/-- The second record the scenario expects: image casing preserved. -/
def demoRec2 : PageRecord :=
  { nombre := "PAGINA_002".toList
    ruta_img := "PAGINA_002.JPG".toList
    ruta_txt := "pagina_002.txt".toList }

/-! ## Text decoder (source lines 36–46)

`leer_texto` opens the file in text mode with each candidate encoding in
turn.  Decoding is modelled at the byte level: strict UTF-8, Latin-1
(which maps every byte to the code point of the same value and never
fails), and CP1252 (whose decode table leaves five bytes undefined).
Python text mode additionally applies universal newline translation to
the decoded string: `\r\n` and lone `\r` become `\n`. -/

/-- Strict UTF-8 decoding of a byte sequence into code points, as CPython
performs it: rejects stray continuation bytes, overlong forms (`C0`/`C1`,
`E0 80–9F`, `F0 80–8F`), surrogates (`ED A0–BF`), leads above `F4` and
values above `U+10FFFF` (`F4 90–BF`), and truncated sequences. -/
def utf8DecodeOpt : List Nat → Option (List Nat)
  | [] => some []
  | b1 :: rest =>
    if b1 < 0x80 then (utf8DecodeOpt rest).map (b1 :: ·)
    else if b1 < 0xC2 then none
    else if b1 < 0xE0 then
      match rest with
      | b2 :: rest2 =>
        if 0x80 ≤ b2 ∧ b2 < 0xC0 then
          (utf8DecodeOpt rest2).map (((b1 - 0xC0) * 64 + (b2 - 0x80)) :: ·)
        else none
      | [] => none
    else if b1 < 0xF0 then
      match rest with
      | b2 :: b3 :: rest3 =>
        if ((if b1 = 0xE0 then 0xA0 else 0x80) ≤ b2
              ∧ b2 < (if b1 = 0xED then 0xA0 else 0xC0))
            ∧ 0x80 ≤ b3 ∧ b3 < 0xC0 then
          (utf8DecodeOpt rest3).map
            (((b1 - 0xE0) * 4096 + (b2 - 0x80) * 64 + (b3 - 0x80)) :: ·)
        else none
      | _ => none
    else if b1 < 0xF5 then
      match rest with
      | b2 :: b3 :: b4 :: rest4 =>
        if ((if b1 = 0xF0 then 0x90 else 0x80) ≤ b2
              ∧ b2 < (if b1 = 0xF4 then 0x90 else 0xC0))
            ∧ (0x80 ≤ b3 ∧ b3 < 0xC0) ∧ 0x80 ≤ b4 ∧ b4 < 0xC0 then
          (utf8DecodeOpt rest4).map
            (((b1 - 0xF0) * 262144 + (b2 - 0x80) * 4096 + (b3 - 0x80) * 64 + (b4 - 0x80)) :: ·)
        else none
      | _ => none
    else none

/-- Latin-1 decoding: every byte is the code point of the same value;
this decode never fails. -/
def latin1Decode (bs : List Nat) : List Nat := bs

/-- The CP1252 decode table for one byte.  Bytes outside `0x80–0x9F`
decode to themselves; in that window the Windows-1252 table applies and
five bytes (`0x81`, `0x8D`, `0x8F`, `0x90`, `0x9D`) are undefined. -/
def cp1252Byte (b : Nat) : Option Nat :=
  if b < 0x80 ∨ 0xA0 ≤ b then some b
  else if b = 0x80 then some 0x20AC
  else if b = 0x82 then some 0x201A
  else if b = 0x83 then some 0x192
  else if b = 0x84 then some 0x201E
  else if b = 0x85 then some 0x2026
  else if b = 0x86 then some 0x2020
  else if b = 0x87 then some 0x2021
  else if b = 0x88 then some 0x2C6
  else if b = 0x89 then some 0x2030
  else if b = 0x8A then some 0x160
  else if b = 0x8B then some 0x2039
  else if b = 0x8C then some 0x152
  else if b = 0x8E then some 0x17D
  else if b = 0x91 then some 0x2018
  else if b = 0x92 then some 0x2019
  else if b = 0x93 then some 0x201C
  else if b = 0x94 then some 0x201D
  else if b = 0x95 then some 0x2022
  else if b = 0x96 then some 0x2013
  else if b = 0x97 then some 0x2014
  else if b = 0x98 then some 0x2DC
  else if b = 0x99 then some 0x2122
  else if b = 0x9A then some 0x161
  else if b = 0x9B then some 0x203A
  else if b = 0x9C then some 0x153
  else if b = 0x9E then some 0x17E
  else if b = 0x9F then some 0x178
  else none

/-- CP1252 decoding of a byte sequence; fails on any undefined byte. -/
def cp1252DecodeOpt : List Nat → Option (List Nat)
  | [] => some []
  | b :: rest =>
    match cp1252Byte b, cp1252DecodeOpt rest with
    | some c, some cs => some (c :: cs)
    | _, _ => none

/-- A UTF-8 continuation byte (`80–BF`). -/
def contB (b : Nat) : Bool := decide (0x80 ≤ b) && decide (b < 0xC0)

/-- The second-byte rule of a three-byte lead: `E0` tightens the lower
bound to `A0` (overlongs) and `ED` tightens the upper bound to `A0`
(surrogates). -/
def cont2of3 (b1 b2 : Nat) : Bool :=
  decide ((if b1 = 0xE0 then 0xA0 else 0x80) ≤ b2)
    && decide (b2 < if b1 = 0xED then 0xA0 else 0xC0)

/-- The second-byte rule of a four-byte lead: `F0` tightens the lower
bound to `90` (overlongs) and `F4` tightens the upper bound to `90`
(values above `U+10FFFF`). -/
def cont2of4 (b1 b2 : Nat) : Bool :=
  decide ((if b1 = 0xF0 then 0x90 else 0x80) ≤ b2)
    && decide (b2 < if b1 = 0xF4 then 0x90 else 0xC0)

/-- The code point of a two-byte sequence. -/
def cp2 (b1 b2 : Nat) : Nat := (b1 - 0xC0) * 64 + (b2 - 0x80)

/-- The code point of a three-byte sequence. -/
def cp3 (b1 b2 b3 : Nat) : Nat := (b1 - 0xE0) * 4096 + (b2 - 0x80) * 64 + (b3 - 0x80)

/-- The code point of a four-byte sequence. -/
def cp4 (b1 b2 b3 b4 : Nat) : Nat :=
  (b1 - 0xF0) * 262144 + (b2 - 0x80) * 4096 + (b3 - 0x80) * 64 + (b4 - 0x80)

def utf8LossyGo : Nat → List Nat → List Nat
  | 0, _ => []
  | _ + 1, [] => []
  | fuel + 1, b1 :: rest =>
    if b1 < 0x80 then b1 :: utf8LossyGo fuel rest
    else if b1 < 0xC2 then 0xFFFD :: utf8LossyGo fuel rest
    else if b1 < 0xE0 then
      match rest with
      | b2 :: rest2 =>
        if contB b2 then cp2 b1 b2 :: utf8LossyGo fuel rest2
        else 0xFFFD :: utf8LossyGo fuel rest
      | [] => [0xFFFD]
    else if b1 < 0xF0 then
      match rest with
      | b2 :: rest2 =>
        if cont2of3 b1 b2 then
          match rest2 with
          | b3 :: rest3 =>
            if contB b3 then cp3 b1 b2 b3 :: utf8LossyGo fuel rest3
            else 0xFFFD :: utf8LossyGo fuel rest2
          | [] => [0xFFFD]
        else 0xFFFD :: utf8LossyGo fuel rest
      | [] => [0xFFFD]
    else if b1 < 0xF5 then
      match rest with
      | b2 :: rest2 =>
        if cont2of4 b1 b2 then
          match rest2 with
          | b3 :: rest3 =>
            if contB b3 then
              match rest3 with
              | b4 :: rest4 =>
                if contB b4 then cp4 b1 b2 b3 b4 :: utf8LossyGo fuel rest4
                else 0xFFFD :: utf8LossyGo fuel rest3
              | [] => [0xFFFD]
            else 0xFFFD :: utf8LossyGo fuel rest2
          | [] => [0xFFFD]
        else 0xFFFD :: utf8LossyGo fuel rest
      | [] => [0xFFFD]
    else 0xFFFD :: utf8LossyGo fuel rest

/-- Modelled from the spec: the lossy last-resort decode
(`errors="replace"`, source line 45) — strict UTF-8 with each maximal
invalid subpart replaced by one `U+FFFD`.  `utf8LossyGo` above is the
scanner; every step consumes at least one byte and one unit of fuel, so
fuel equal to the input length always suffices. -/
def utf8Lossy (bs : List Nat) : List Nat := utf8LossyGo bs.length bs

/-- Universal newline translation of Python text mode (`newline=None`):
`\r\n` and lone `\r` both become `\n` in the decoded string. -/
def univNewlines : List Nat → List Nat
  | [] => []
  | 13 :: 10 :: rest => 10 :: univNewlines rest
  | 13 :: rest => 10 :: univNewlines rest
  | c :: rest => c :: univNewlines rest

/-- The candidate encodings of line 38, in source order. -/
inductive Enc where
  | utf8
  | latin1
  | cp1252
deriving DecidableEq, Repr

/-- One decode attempt with a given encoding (text mode: newline
translation applies to the decoded result). -/
def tryDecode (e : Enc) (bs : List Nat) : Option (List Nat) :=
  match e with
  | .utf8 => (utf8DecodeOpt bs).map univNewlines
  | .latin1 => some (univNewlines (latin1Decode bs))
  | .cp1252 => (cp1252DecodeOpt bs).map univNewlines

/-- The encodings tried by the `for` loop of line 38, in order. -/
def encOrder : List Enc := [.utf8, .latin1, .cp1252]

/-- The `for`/`try`/`except` loop: return the first successful decode. -/
def firstDecode : List Enc → List Nat → Option (List Nat)
  | [], _ => none
  | e :: es, bs =>
    match tryDecode e bs with
    | some s => some s
    | none => firstDecode es bs

/-- Source lines 36–46: try UTF-8, Latin-1 and CP1252 in order; if all
fail, fall back to the lossy UTF-8 decode (also in text mode). -/
def leer_texto (bs : List Nat) : List Nat :=
  match firstDecode encOrder bs with
  | some s => s
  | none => univNewlines (utf8Lossy bs)

/-! ## Image encoder (source lines 29–33)

`imagen_a_base64` reads the file's raw bytes and returns
`base64.b64encode(datos)` as text.  The library encoder is modelled from
the spec: standard base-64 (RFC 4648) with `=` padding, which is exactly
what `base64.b64encode` produces. -/

/-- The base-64 alphabet, indexed by sextet value. -/
def b64chars : List Char :=
  ("ABCDEFGHIJKLMNOPQRSTUVWXYZabcdefghijklmnopqrstuvwxyz0123456789+/").toList

/-- The character encoding a sextet. -/
def sextetChar (n : Nat) : Char := b64chars.getD n 'A'

/-- The index of a character in a list, if present. -/
def charIdx (c : Char) : List Char → Option Nat
  | [] => none
  | x :: xs => if x = c then some 0 else (charIdx c xs).map (· + 1)

/-- The sextet encoded by a character (`none` for non-alphabet
characters, including the pad `=`). -/
def charSextet (c : Char) : Option Nat := charIdx c b64chars

/-- Modelled from the spec: standard base-64 encoding of a byte sequence,
as `base64.b64encode` computes it — three bytes become four alphabet
characters; a final group of two or one byte is padded with `=`. -/
def imagen_a_base64 : List Nat → List Char
  | b1 :: b2 :: b3 :: rest =>
    let n := b1 * 65536 + b2 * 256 + b3
    sextetChar (n / 262144) :: sextetChar (n / 4096 % 64) ::
      sextetChar (n / 64 % 64) :: sextetChar (n % 64) :: imagen_a_base64 rest
  | [b1, b2] =>
    let n := b1 * 1024 + b2 * 4
    [sextetChar (n / 4096), sextetChar (n / 64 % 64), sextetChar (n % 64), '=']
  | [b1] =>
    let n := b1 * 16
    [sextetChar (n / 64), sextetChar (n % 64), '=', '=']
  | [] => []

/-- Modelled from the spec: standard base-64 decoding — the inverse used
to state that the encoding is byte-for-byte lossless.  Groups of four
characters yield three bytes; `=` padding, legal only at the very end,
closes a final group of one or two bytes. -/
def b64decode : List Char → Option (List Nat)
  | [] => some []
  | c1 :: c2 :: c3 :: c4 :: rest =>
    if c3 = '=' then
      if c4 = '=' ∧ rest = [] then
        match charSextet c1, charSextet c2 with
        | some s1, some s2 => some [s1 * 4 + s2 / 16]
        | _, _ => none
      else none
    else if c4 = '=' then
      if rest = [] then
        match charSextet c1, charSextet c2, charSextet c3 with
        | some s1, some s2, some s3 => some [s1 * 4 + s2 / 16, s2 % 16 * 16 + s3 / 4]
        | _, _, _ => none
      else none
    else
      match charSextet c1, charSextet c2, charSextet c3, charSextet c4, b64decode rest with
      | some s1, some s2, some s3, some s4, some bytes =>
        let n := s1 * 262144 + s2 * 4096 + s3 * 64 + s4
        some (n / 65536 :: n / 256 % 256 :: n % 256 :: bytes)
      | _, _, _, _, _ => none
  | _ => none

/-! ## Artifact assembler (source lines 78–99 and 450–451)

The loop of lines 84–97 reads every pair's image and text and builds the
page array; the output file is opened and written only afterwards (line
450).  Reads are modelled by environment functions from path to optional
byte content (`none` = the read raises).  The fixed presentation template
around the page array carries no logic and is treated as the opaque
external asset the spec declares it to be; the assembler's output is the
embedded per-page data, and `none` means the run failed before anything
was written. -/

/-- The decoded text of a page, as a character list (code points of the
decoded string). -/
def toChars (l : List Nat) : List Char := l.map Char.ofNat

/-- One page's embedded data (source lines 91–97). -/
structure PageContent where
  nombre : List Char
  imagen : List Char
  texto : List Char
deriving DecidableEq, Repr

/-- The data-URI prefix of line 94. -/
def dataUriPrefix : List Char := ("data:image/jpeg;base64,").toList

/-- Lines 86–97 for one pair: encode the image bytes, decode and
doubly-escape the text bytes, and markup-escape (only) the display
name. -/
def page_content (nombre : List Char) (imgBytes txtBytes : List Nat) : PageContent :=
  { nombre := html_escape nombre
    imagen := dataUriPrefix ++ imagen_a_base64 imgBytes
    texto := texto_js (toChars (leer_texto txtBytes)) }

/-- The per-pair loop of lines 84–97: read each pair's image, then its
text, in order; any failed read aborts the whole run. -/
def build_pages (readImg readTxt : List Char → Option (List Nat)) :
    List PageRecord → Option (List PageContent)
  | [] => some []
  | p :: rest =>
    match readImg p.ruta_img with
    | none => none
    | some ib =>
      match readTxt p.ruta_txt with
      | none => none
      | some tb =>
        match build_pages readImg readTxt rest with
        | none => none
        | some pcs => some (page_content p.nombre ib tb :: pcs)

/-- Source lines 78–99/450–451: assemble the document's page data; the
output file is written only when every read succeeded. -/
def generar_html (readImg readTxt : List Char → Option (List Nat))
    (pares : List PageRecord) : Option (List PageContent) :=
  build_pages readImg readTxt pares

/-! ## Lemmas: the content escaper -/

theorem replaceChar_append (p : Char) (r : List Char) (a b : List Char) :
    replaceChar p r (a ++ b) = replaceChar p r a ++ replaceChar p r b := by
  induction a with
  | nil => rfl
  | cons c s ih => simp [replaceChar, ih]

theorem html_escape_cons (c : Char) (s : List Char) :
    html_escape (c :: s) = html_escape [c] ++ html_escape s := by
  show replaceChar apos aposEnt (replaceChar '"' quotEnt (replaceChar '>' gtEnt
    (replaceChar '<' ltEnt (replaceChar '&' ampEnt ([c] ++ s))))) = _
  rw [replaceChar_append, replaceChar_append, replaceChar_append,
    replaceChar_append, replaceChar_append]
  rfl

theorem texto_js_cons (c : Char) (s : List Char) :
    texto_js (c :: s) = texto_js [c] ++ texto_js s := by
  show replaceChar '$' [bsl, '$'] (replaceChar bq [bsl, bq] (replaceChar bsl [bsl, bsl]
    (replaceChar apos aposEnt (replaceChar '"' quotEnt (replaceChar '>' gtEnt
      (replaceChar '<' ltEnt (replaceChar '&' ampEnt ([c] ++ s)))))))) = _
  rw [replaceChar_append, replaceChar_append, replaceChar_append, replaceChar_append,
    replaceChar_append, replaceChar_append, replaceChar_append, replaceChar_append]
  rfl

theorem html_escape_single (c : Char) (h1 : ¬c = '&') (h2 : ¬c = '<')
    (h3 : ¬c = '>') (h4 : ¬c = '"') (h5 : ¬c = apos) : html_escape [c] = [c] := by
  simp [html_escape, replaceChar, h1, h2, h3, h4, h5]

theorem texto_js_single (c : Char) (h1 : ¬c = '&') (h2 : ¬c = '<')
    (h3 : ¬c = '>') (h4 : ¬c = '"') (h5 : ¬c = apos) (h6 : ¬c = bsl)
    (h7 : ¬c = bq) (h8 : ¬c = '$') : texto_js [c] = [c] := by
  simp [texto_js, html_escape, replaceChar, h1, h2, h3, h4, h5, h6, h7, h8]

theorem unescape_script_cons (c : Char) (h : ¬c = bsl) (t : List Char) :
    unescape_script (c :: t) = c :: unescape_script t := by
  cases t with
  | nil => rfl
  | cons x xs => simp [unescape_script, h]

theorem unescape_script_esc (x : Char) (t : List Char) :
    unescape_script (bsl :: x :: t) = x :: unescape_script t := by
  simp [unescape_script]

theorem unescape_script_clean (l : List Char) (h : ∀ c ∈ l, ¬c = bsl)
    (t : List Char) : unescape_script (l ++ t) = l ++ unescape_script t := by
  induction l with
  | nil => rfl
  | cons c s ih =>
    rw [List.cons_append, unescape_script_cons c (h c (by simp)),
      ih (fun x hx => h x (by simp [hx]))]
    rfl

theorem has_unescaped_special_esc (x : Char) (t : List Char) :
    has_unescaped_special (bsl :: x :: t) = has_unescaped_special t := by
  simp [has_unescaped_special]

theorem has_unescaped_special_cons (c : Char) (hb : ¬c = bsl) (hq : ¬c = bq)
    (hd : ¬c = '$') (t : List Char) :
    has_unescaped_special (c :: t) = has_unescaped_special t := by
  cases t with
  | nil => simp [has_unescaped_special, hb, hq, hd]
  | cons x xs => simp [has_unescaped_special, hb, hq, hd]

theorem has_unescaped_special_clean (l : List Char)
    (h : ∀ c ∈ l, ¬c = bsl ∧ ¬c = bq ∧ ¬c = '$') (t : List Char) :
    has_unescaped_special (l ++ t) = has_unescaped_special t := by
  induction l with
  | nil => rfl
  | cons c s ih =>
    obtain ⟨hb, hq, hd⟩ := h c (by simp)
    rw [List.cons_append, has_unescaped_special_cons c hb hq hd,
      ih (fun x hx => h x (by simp [hx]))]

theorem unescape_markup_cons (c : Char) (h : ¬c = '&') (u : List Char) :
    unescape_markup (c :: u) = c :: unescape_markup u := by
  simp [unescape_markup, h]

theorem us_chunk (c : Char) (t : List Char) :
    unescape_script (texto_js [c] ++ t) = html_escape [c] ++ unescape_script t := by
  by_cases h1 : c = '&'
  · subst h1
    show unescape_script (ampEnt ++ t) = ampEnt ++ unescape_script t
    exact unescape_script_clean ampEnt (by decide) t
  by_cases h2 : c = '<'
  · subst h2
    show unescape_script (ltEnt ++ t) = ltEnt ++ unescape_script t
    exact unescape_script_clean ltEnt (by decide) t
  by_cases h3 : c = '>'
  · subst h3
    show unescape_script (gtEnt ++ t) = gtEnt ++ unescape_script t
    exact unescape_script_clean gtEnt (by decide) t
  by_cases h4 : c = '"'
  · subst h4
    show unescape_script (quotEnt ++ t) = quotEnt ++ unescape_script t
    exact unescape_script_clean quotEnt (by decide) t
  by_cases h5 : c = apos
  · subst h5
    show unescape_script (aposEnt ++ t) = aposEnt ++ unescape_script t
    exact unescape_script_clean aposEnt (by decide) t
  by_cases h6 : c = bsl
  · subst h6
    show unescape_script (bsl :: bsl :: t) = [bsl] ++ unescape_script t
    rw [unescape_script_esc]
    rfl
  by_cases h7 : c = bq
  · subst h7
    show unescape_script (bsl :: bq :: t) = [bq] ++ unescape_script t
    rw [unescape_script_esc]
    rfl
  by_cases h8 : c = '$'
  · subst h8
    show unescape_script (bsl :: '$' :: t) = ['$'] ++ unescape_script t
    rw [unescape_script_esc]
    rfl
  · rw [texto_js_single c h1 h2 h3 h4 h5 h6 h7 h8,
      html_escape_single c h1 h2 h3 h4 h5, List.singleton_append,
      List.singleton_append, unescape_script_cons c h6]

theorem um_amp (u : List Char) :
    unescape_markup (ampEnt ++ u) = '&' :: unescape_markup u := by
  show unescape_markup ('&' :: 'a' :: 'm' :: 'p' :: ';' :: u) = _
  simp [unescape_markup, List.take, List.drop]

theorem um_lt (u : List Char) :
    unescape_markup (ltEnt ++ u) = '<' :: unescape_markup u := by
  show unescape_markup ('&' :: 'l' :: 't' :: ';' :: u) = _
  simp [unescape_markup, List.take, List.drop]

theorem um_gt (u : List Char) :
    unescape_markup (gtEnt ++ u) = '>' :: unescape_markup u := by
  show unescape_markup ('&' :: 'g' :: 't' :: ';' :: u) = _
  simp [unescape_markup, List.take, List.drop]

theorem um_quot (u : List Char) :
    unescape_markup (quotEnt ++ u) = '"' :: unescape_markup u := by
  show unescape_markup ('&' :: 'q' :: 'u' :: 'o' :: 't' :: ';' :: u) = _
  simp [unescape_markup, List.take, List.drop]

theorem um_apos (u : List Char) :
    unescape_markup (aposEnt ++ u) = apos :: unescape_markup u := by
  show unescape_markup ('&' :: '#' :: 'x' :: '2' :: '7' :: ';' :: u) = _
  simp [unescape_markup, List.take, List.drop]
  rfl

theorem um_chunk (c : Char) (u : List Char) :
    unescape_markup (html_escape [c] ++ u) = c :: unescape_markup u := by
  by_cases h1 : c = '&'
  · subst h1
    exact um_amp u
  by_cases h2 : c = '<'
  · subst h2
    exact um_lt u
  by_cases h3 : c = '>'
  · subst h3
    exact um_gt u
  by_cases h4 : c = '"'
  · subst h4
    exact um_quot u
  by_cases h5 : c = apos
  · subst h5
    exact um_apos u
  · rw [html_escape_single c h1 h2 h3 h4 h5, List.singleton_append,
      unescape_markup_cons c h1]

theorem scan_chunk (c : Char) (t : List Char) :
    has_unescaped_special (texto_js [c] ++ t) = has_unescaped_special t := by
  by_cases h1 : c = '&'
  · subst h1
    exact has_unescaped_special_clean ampEnt (by decide) t
  by_cases h2 : c = '<'
  · subst h2
    exact has_unescaped_special_clean ltEnt (by decide) t
  by_cases h3 : c = '>'
  · subst h3
    exact has_unescaped_special_clean gtEnt (by decide) t
  by_cases h4 : c = '"'
  · subst h4
    exact has_unescaped_special_clean quotEnt (by decide) t
  by_cases h5 : c = apos
  · subst h5
    exact has_unescaped_special_clean aposEnt (by decide) t
  by_cases h6 : c = bsl
  · subst h6
    exact has_unescaped_special_esc bsl t
  by_cases h7 : c = bq
  · subst h7
    exact has_unescaped_special_esc bq t
  by_cases h8 : c = '$'
  · subst h8
    exact has_unescaped_special_esc '$' t
  · rw [texto_js_single c h1 h2 h3 h4 h5 h6 h7 h8, List.singleton_append,
      has_unescaped_special_cons c h6 h7 h8]

theorem html_escape_filter_specials (n : List Char) :
    (html_escape n).filter isScriptSpecial = n.filter isScriptSpecial := by
  induction n with
  | nil => rfl
  | cons c s ih =>
    rw [html_escape_cons, List.filter_append]
    by_cases h1 : c = '&'
    · subst h1
      rw [ih]
      rfl
    by_cases h2 : c = '<'
    · subst h2
      rw [ih]
      rfl
    by_cases h3 : c = '>'
    · subst h3
      rw [ih]
      rfl
    by_cases h4 : c = '"'
    · subst h4
      rw [ih]
      rfl
    by_cases h5 : c = apos
    · subst h5
      rw [ih]
      rfl
    · rw [html_escape_single c h1 h2 h3 h4 h5]
      cases hsp : isScriptSpecial c <;> simp [List.filter_cons, hsp, ih]

/-- Claim C2: for every input text `T`, unescaping the script-literal
layer of the twice-escaped form (`html.escape` then the line-90 script
escaping, as computed for `texto_js` in `generar_html`) and then
rendering the result as markup reproduces `T` exactly — in particular
when `T` contains `&`, `<`, `>`, backtick, backslash and `$`. -/
theorem claim_C2_roundtrip (t : List Char) :
    unescape_markup (unescape_script (texto_js t)) = t := by
  induction t with
  | nil =>
    show unescape_markup (unescape_script (texto_js [])) = []
    rw [show texto_js [] = [] from rfl, show unescape_script [] = [] from rfl]
    simp [unescape_markup]
  | cons c s ih => rw [texto_js_cons, us_chunk, um_chunk, ih]

/-- Claim C3: the script-escaped text produced by the content escaper
contains no unescaped backtick, no unescaped `$` (hence no `$`-brace
interpolation trigger) and no dangling backslash: every backslash,
backtick and `$` of the markup-escaped intermediate sits inside a
backslash escape, so any text — including one containing a literal
backtick-`$`-brace sequence — stays an inert string inside the
backtick-delimited script literal. -/
theorem claim_C3_inert (t : List Char) :
    has_unescaped_special (texto_js t) = false := by
  induction t with
  | nil => rfl
  | cons c s ih => rw [texto_js_cons, scan_chunk, ih]

/-- Claim C8: the display name embedded in the generated document gets
only the markup escaping pass (`html.escape`, line 93) and no
script-string-literal escaping: the backslashes, backticks and `$` of the
name survive unchanged with no escaping backslash added (their filtered
subsequence is exactly that of the original name), and a name consisting
of a backtick indeed reaches the script template literal unescaped. -/
theorem claim_C8_nombre (n : List Char) (bi bt : List Nat) :
    (page_content n bi bt).nombre = html_escape n
    ∧ (html_escape n).filter isScriptSpecial = n.filter isScriptSpecial
    ∧ has_unescaped_special ((page_content [bq] bi bt).nombre) = true := by
  refine ⟨rfl, html_escape_filter_specials n, ?_⟩
  show has_unescaped_special (html_escape [bq]) = true
  decide


/-! ## Lemmas: the image encoder -/

theorem charSextet_sextetChar : ∀ k : Fin 64, charSextet (sextetChar k.val) = some k.val := by
  decide

theorem sextetChar_ne_pad : ∀ k : Fin 64, ¬sextetChar k.val = '=' := by
  decide

theorem charSextet_of_lt (k : Nat) (h : k < 64) : charSextet (sextetChar k) = some k :=
  charSextet_sextetChar ⟨k, h⟩

theorem sextetChar_ne_pad_of_lt (k : Nat) (h : k < 64) : ¬sextetChar k = '=' :=
  sextetChar_ne_pad ⟨k, h⟩

theorem b64_roundtrip : ∀ bs : List Nat, (∀ b ∈ bs, b < 256) →
    b64decode (imagen_a_base64 bs) = some bs
  | [], _ => rfl
  | [b1], h => by
    have hb1 : b1 < 256 := h b1 (by simp)
    simp only [imagen_a_base64]
    simp only [b64decode]
    rw [charSextet_of_lt (b1 * 16 / 64) (by omega), charSextet_of_lt (b1 * 16 % 64) (by omega)]
    simp
    omega
  | [b1, b2], h => by
    have hb1 : b1 < 256 := h b1 (by simp)
    have hb2 : b2 < 256 := h b2 (by simp)
    have hne : ¬sextetChar ((b1 * 1024 + b2 * 4) % 64) = '=' := sextetChar_ne_pad_of_lt _ (by omega)
    simp only [imagen_a_base64]
    simp only [b64decode]
    rw [charSextet_of_lt ((b1 * 1024 + b2 * 4) / 4096) (by omega),
      charSextet_of_lt ((b1 * 1024 + b2 * 4) / 64 % 64) (by omega),
      charSextet_of_lt ((b1 * 1024 + b2 * 4) % 64) (by omega)]
    simp [hne]
    omega
  | b1 :: b2 :: b3 :: rest, h => by
    have hb1 : b1 < 256 := h b1 (by simp)
    have hb2 : b2 < 256 := h b2 (by simp)
    have hb3 : b3 < 256 := h b3 (by simp)
    have ih := b64_roundtrip rest (fun b hb => h b (by simp [hb]))
    have hne3 : ¬sextetChar ((b1 * 65536 + b2 * 256 + b3) / 64 % 64) = '=' :=
      sextetChar_ne_pad_of_lt _ (by omega)
    have hne4 : ¬sextetChar ((b1 * 65536 + b2 * 256 + b3) % 64) = '=' :=
      sextetChar_ne_pad_of_lt _ (by omega)
    simp only [imagen_a_base64]
    simp only [b64decode]
    rw [charSextet_of_lt ((b1 * 65536 + b2 * 256 + b3) / 262144) (by omega),
      charSextet_of_lt ((b1 * 65536 + b2 * 256 + b3) / 4096 % 64) (by omega),
      charSextet_of_lt ((b1 * 65536 + b2 * 256 + b3) / 64 % 64) (by omega),
      charSextet_of_lt ((b1 * 65536 + b2 * 256 + b3) % 64) (by omega)]
    simp [hne3, hne4, ih]
    omega

/-- Claim C4: for every byte sequence (including the empty one), the
image encoder's base-64 textual encoding is byte-for-byte lossless:
decoding the string produced by `imagen_a_base64` yields exactly the
original bytes, with no transformation of the image data. -/
theorem claim_C4_base64_lossless (bs : List Nat) (h : ∀ b ∈ bs, b < 256) :
    b64decode (imagen_a_base64 bs) = some bs :=
  b64_roundtrip bs h

theorem claim_C4_base64_lossless_witness :
    ((∀ b ∈ ([] : List Nat), b < 256) ∧ b64decode (imagen_a_base64 []) = some [])
    ∧ (∀ b ∈ [77, 97, 110, 255, 0], b < 256)
    ∧ b64decode (imagen_a_base64 [77, 97, 110, 255, 0]) = some [77, 97, 110, 255, 0] :=
  ⟨⟨by decide, claim_C4_base64_lossless [] (by decide)⟩, by decide,
    claim_C4_base64_lossless [77, 97, 110, 255, 0] (by decide)⟩

/-! ## Lemmas: the text decoder -/

/-- Claim C5 (counterexample): the bytes `"a\r\nb"` decode without error
under utf-8 to `[97, 13, 10, 98]`, yet `leer_texto` does not return that
decode result unchanged — Python text mode translates the CR LF pair to a
single LF, so the function returns `[97, 10, 98]`. -/
theorem claim_C5_counterexample :
    utf8DecodeOpt [97, 13, 10, 98] = some [97, 13, 10, 98]
    ∧ leer_texto [97, 13, 10, 98] = [97, 10, 98]
    ∧ ¬leer_texto [97, 13, 10, 98] = [97, 13, 10, 98] := by
  decide

/-- Claim C5 (amended): `leer_texto` never raises; it tries utf-8, then
latin-1, then cp1252 in that fixed order and returns the result of the
first encoding that decodes without error — with text-mode universal
newline translation applied — and were all three to fail it would return
the lossy utf-8 decode (also newline-translated). -/
theorem claim_C5_decoder_order (bs : List Nat) :
    leer_texto bs =
      ((tryDecode .utf8 bs).orElse (fun _ =>
        (tryDecode .latin1 bs).orElse (fun _ => tryDecode .cp1252 bs))).getD
        (univNewlines (utf8Lossy bs)) := by
  simp only [leer_texto, encOrder, firstDecode]
  cases h1 : tryDecode .utf8 bs with
  | some s => simp [Option.orElse, h1]
  | none =>
    cases h2 : tryDecode .latin1 bs with
    | some s => simp [Option.orElse, h1, h2]
    | none =>
      cases h3 : tryDecode .cp1252 bs with
      | some s => simp [Option.orElse, h1, h2, h3]
      | none => simp [Option.orElse, h1, h2, h3]

/-- Claim C10 (counterexample): the claim's phrasing "the result is the
utf-8 decoding when the bytes are valid utf-8" fails on the single byte
CR: utf-8 decodes `[13]` to `[13]`, but `leer_texto` returns `[10]`
(universal newline translation). -/
theorem claim_C10_counterexample :
    utf8DecodeOpt [13] = some [13] ∧ leer_texto [13] = [10]
    ∧ ¬leer_texto [13] = [13] := by
  decide

/-- Claim C10 (amended): the cp1252 attempt and the lossy fallback of
`leer_texto` are unreachable — the in-order decode loop always succeeds
by the latin-1 attempt at the latest — and the result is the
newline-translated utf-8 decoding when the bytes are valid utf-8, and
the newline-translated latin-1 decoding otherwise. -/
theorem claim_C10_latin1_total (bs : List Nat) :
    (firstDecode encOrder bs).isSome = true
    ∧ leer_texto bs =
        ((utf8DecodeOpt bs).map univNewlines).getD (univNewlines (latin1Decode bs)) := by
  constructor
  · simp only [encOrder, firstDecode]
    cases h1 : tryDecode .utf8 bs with
    | some s => simp
    | none => simp [tryDecode]
  · simp only [leer_texto, encOrder, firstDecode]
    cases h1 : utf8DecodeOpt bs with
    | some s => simp [tryDecode, h1]
    | none => simp [tryDecode, h1]

/-! ## Lemmas: the artifact assembler -/

/-- Claim C9: if reading any single pair's image file or text file fails
during assembly, the whole assembly fails and no output document is
produced — every per-pair read happens before the output file is opened,
so the failed run yields `none` rather than a partial artifact. -/
theorem claim_C9_no_partial (readImg readTxt : List Char → Option (List Nat))
    (pares : List PageRecord) (p : PageRecord) (hp : p ∈ pares)
    (hfail : readImg p.ruta_img = none ∨ readTxt p.ruta_txt = none) :
    generar_html readImg readTxt pares = none := by
  induction pares with
  | nil => cases hp
  | cons q rest ih =>
    simp only [generar_html] at ih ⊢
    rcases List.mem_cons.mp hp with rfl | hmem
    · cases hfail with
      | inl hf => simp [build_pages, hf]
      | inr hf =>
        cases hri : readImg p.ruta_img with
        | none => simp [build_pages, hri]
        | some ib => simp [build_pages, hri, hf]
    · have hrest := ih hmem
      cases hri : readImg q.ruta_img with
      | none => simp [build_pages, hri]
      | some ib =>
        cases hrt : readTxt q.ruta_txt with
        | none => simp [build_pages, hri, hrt]
        | some tb => simp [build_pages, hri, hrt, hrest]

theorem claim_C9_no_partial_witness :
    generar_html (fun _ => none) (fun _ => some [])
      [{ nombre := "a".toList, ruta_img := "a.jpg".toList, ruta_txt := "a.txt".toList }]
      = none :=
  claim_C9_no_partial (fun _ => none) (fun _ => some [])
    [{ nombre := "a".toList, ruta_img := "a.jpg".toList, ruta_txt := "a.txt".toList }]
    { nombre := "a".toList, ruta_img := "a.jpg".toList, ruta_txt := "a.txt".toList }
    (by simp) (Or.inl rfl)

/-! ## Lemmas: the file pairer -/

theorem dget_dinsert (d : List (List Char × List Char)) (k v k' : List Char) :
    dget (dinsert d k v) k' = if k' = k then some v else dget d k' := by
  induction d with
  | nil =>
    by_cases h : k' = k
    · simp [dinsert, dget, h]
    · have h2 : ¬k = k' := fun hh => h hh.symm
      simp [dinsert, dget, h, h2]
  | cons p rest ih =>
    by_cases hpk : p.1 = k
    · by_cases hk : k' = k
      · simp [dinsert, dget, hpk, hk]
      · have hk2 : ¬k = k' := fun hh => hk hh.symm
        simp [dinsert, dget, hpk, hk, hk2]
    · by_cases hpk' : p.1 = k'
      · have hk : ¬k' = k := fun h => hpk (hpk'.trans h)
        simp [dinsert, dget, hpk, hpk', hk]
      · simp [dinsert, dget, hpk, hpk', ih]

theorem mem_dkeys_dinsert (d : List (List Char × List Char)) (k v k' : List Char) :
    k' ∈ dkeys (dinsert d k v) ↔ k' ∈ dkeys d ∨ k' = k := by
  induction d with
  | nil => simp [dinsert, dkeys]
  | cons p rest ih =>
    by_cases hpk : p.1 = k
    · simp [dinsert, dkeys, hpk]
      tauto
    · simp only [dinsert, if_neg hpk, dkeys, List.map_cons, List.mem_cons]
      rw [show List.map Prod.fst (dinsert rest k v) = dkeys (dinsert rest k v) from rfl, ih]
      simp [dkeys]
      tauto

theorem nodup_dkeys_dinsert (d : List (List Char × List Char)) (k v : List Char)
    (h : (dkeys d).Nodup) : (dkeys (dinsert d k v)).Nodup := by
  induction d with
  | nil => simp [dinsert, dkeys]
  | cons p rest ih =>
    simp only [dkeys, List.map_cons, List.nodup_cons] at h
    by_cases hpk : p.1 = k
    · simp only [dinsert, if_pos hpk, dkeys, List.map_cons, List.nodup_cons]
      exact ⟨fun hm => h.1 (hpk ▸ hm), h.2⟩
    · simp only [dinsert, if_neg hpk, dkeys, List.map_cons, List.nodup_cons]
      refine ⟨fun hm => ?_, ih h.2⟩
      rcases (mem_dkeys_dinsert rest k v p.1).mp hm with hmm | hmm
      · exact h.1 hmm
      · exact hpk hmm

theorem dget_foldl (fs : List (List Char)) (d : List (List Char × List Char)) (k : List Char) :
    dget (fs.foldl (fun d f => dinsert d (matchKey f) f) d) k =
      ((fs.filter (fun f => decide (matchKey f = k))).getLast?).or (dget d k) := by
  induction fs generalizing d with
  | nil => simp
  | cons f fs' ih =>
    rw [List.foldl_cons, ih]
    by_cases hk : matchKey f = k
    · rw [List.filter_cons_of_pos (by simp [hk])]
      cases hfl : fs'.filter (fun f => decide (matchKey f = k)) with
      | nil => simp [hfl, dget_dinsert, hk]
      | cons g gs =>
        rw [List.getLast?_cons_cons]
        cases hgl : (g :: gs).getLast? with
        | none => simp at hgl
        | some x => simp [hgl]
    · rw [List.filter_cons_of_neg (by simp [hk])]
      rw [dget_dinsert]
      rw [if_neg (fun hh => hk hh.symm)]

theorem mem_dkeys_foldl (fs : List (List Char)) (d : List (List Char × List Char)) (k : List Char) :
    k ∈ dkeys (fs.foldl (fun d f => dinsert d (matchKey f) f) d) ↔
      k ∈ dkeys d ∨ ∃ f ∈ fs, matchKey f = k := by
  induction fs generalizing d with
  | nil => simp
  | cons f fs' ih =>
    rw [List.foldl_cons, ih, mem_dkeys_dinsert]
    simp
    tauto

theorem nodup_dkeys_foldl (fs : List (List Char)) (d : List (List Char × List Char))
    (h : (dkeys d).Nodup) :
    (dkeys (fs.foldl (fun d f => dinsert d (matchKey f) f) d)).Nodup := by
  induction fs generalizing d with
  | nil => exact h
  | cons f fs' ih => exact ih _ (nodup_dkeys_dinsert d (matchKey f) f h)

theorem collect_eq_foldl (pats : List (List Char)) (files : List (List Char)) :
    collect pats files =
      (enumFiles pats files).foldl (fun d f => dinsert d (matchKey f) f) [] := by
  suffices h : ∀ (d : List (List Char × List Char)),
      pats.foldl (fun d ext => (globFiles ext files).foldl (fun d f => dinsert d (matchKey f) f) d) d
        = (enumFiles pats files).foldl (fun d f => dinsert d (matchKey f) f) d by
    exact h []
  induction pats with
  | nil => intro d; rfl
  | cons e ps ih =>
    intro d
    rw [List.foldl_cons]
    show List.foldl _ (List.foldl _ d (globFiles e files)) ps = _
    rw [ih]
    simp only [enumFiles, List.flatMap_cons, List.foldl_append]

theorem mem_dkeys_cons (p : List Char × List Char) (rest : List (List Char × List Char))
    (k : List Char) : k ∈ dkeys (p :: rest) ↔ k = p.1 ∨ k ∈ dkeys rest := by
  simp [dkeys]

theorem dget_eq_none_iff (d : List (List Char × List Char)) (k : List Char) :
    dget d k = none ↔ ¬k ∈ dkeys d := by
  induction d with
  | nil => simp [dget, dkeys]
  | cons p rest ih =>
    by_cases hp : p.1 = k
    · simp [dget, dkeys, hp]
    · have hd : dget (p :: rest) k = dget rest k := by simp [dget, hp]
      rw [hd, ih, mem_dkeys_cons]
      constructor
      · intro hk h1
        rcases h1 with h1 | h1
        · exact hp h1.symm
        · exact hk h1
      · exact fun hk h1 => hk (Or.inr h1)

theorem dget_collect (pats files : List (List Char)) (k : List Char) :
    dget (collect pats files) k =
      ((enumFiles pats files).filter (fun f => decide (matchKey f = k))).getLast? := by
  rw [collect_eq_foldl, dget_foldl]
  simp [dget]

theorem mem_dkeys_collect (pats files : List (List Char)) (k : List Char) :
    k ∈ dkeys (collect pats files) ↔ ∃ f ∈ enumFiles pats files, matchKey f = k := by
  rw [collect_eq_foldl, mem_dkeys_foldl]
  simp [dkeys]

theorem nodup_dkeys_collect (pats files : List (List Char)) :
    (dkeys (collect pats files)).Nodup := by
  rw [collect_eq_foldl]
  exact nodup_dkeys_foldl _ [] (by simp [dkeys])

theorem dget_collect_mem (pats files : List (List Char)) (k v : List Char)
    (h : dget (collect pats files) k = some v) :
    v ∈ enumFiles pats files ∧ matchKey v = k := by
  rw [dget_collect] at h
  have hv : v ∈ (enumFiles pats files).filter (fun f => decide (matchKey f = k)) :=
    List.mem_of_mem_getLast? (by rw [Option.mem_def, h])
  simp at hv
  exact ⟨hv.1, hv.2⟩

theorem dget_isSome_iff_mem (d : List (List Char × List Char)) (k : List Char) :
    (dget d k).isSome = true ↔ k ∈ dkeys d := by
  cases h : dget d k with
  | none => simp [(dget_eq_none_iff d k).mp h]
  | some v =>
    simp
    by_contra hk
    rw [(dget_eq_none_iff d k).mpr hk] at h
    cases h

theorem listCharLe_total : ∀ a b : List Char, listCharLe a b = true ∨ listCharLe b a = true
  | [], _ => Or.inl rfl
  | _ :: _, [] => Or.inr rfl
  | a :: as, b :: bs => by
    by_cases hab : a = b
    · subst hab
      simp only [listCharLe, if_pos rfl]
      exact listCharLe_total as bs
    · have hba : ¬b = a := fun h => hab h.symm
      rcases lt_or_gt_of_ne hab with h | h
      · exact Or.inl (by simp [listCharLe, hab, h])
      · exact Or.inr (by simp [listCharLe, hba, h])

theorem listCharLe_trans : ∀ a b c : List Char,
    listCharLe a b = true → listCharLe b c = true → listCharLe a c = true
  | [], _, _, _, _ => rfl
  | a :: as, [], c, h1, _ => by simp [listCharLe] at h1
  | a :: as, b :: bs, [], _, h2 => by simp [listCharLe] at h2
  | a :: as, b :: bs, c :: cs, h1, h2 => by
    by_cases hab : a = b <;> by_cases hbc : b = c
    · subst hab
      subst hbc
      simp only [listCharLe, if_pos rfl] at h1 h2 ⊢
      exact listCharLe_trans as bs cs h1 h2
    · subst hab
      simp only [listCharLe, if_neg hbc] at h2
      simp only [listCharLe, if_neg hbc, h2]
    · subst hbc
      simp only [listCharLe, if_neg hab] at h1
      simp only [listCharLe, if_neg hab, h1]
    · simp only [listCharLe, if_neg hab] at h1
      simp only [listCharLe, if_neg hbc] at h2
      have hac : a < c := lt_trans (of_decide_eq_true h1) (of_decide_eq_true h2)
      simp [listCharLe, ne_of_lt hac, hac]

theorem hasImageKey_iff (imgs : List (List Char)) (k : List Char) :
    hasImageKey imgs k = true ↔ ∃ f ∈ enumFiles imagePats imgs, matchKey f = k := by
  simp [hasImageKey, List.any_eq_true]

theorem hasTextKey_iff (txts : List (List Char)) (k : List Char) :
    hasTextKey txts k = true ↔ ∃ f ∈ enumFiles textPats txts, matchKey f = k := by
  simp [hasTextKey, List.any_eq_true]

theorem interKeysList_nodup (imgs txts : List (List Char)) :
    (interKeysList imgs txts).Nodup :=
  (nodup_dkeys_collect imagePats imgs).filter _

theorem mem_interKeysList (imgs txts : List (List Char)) (k : List Char) :
    k ∈ interKeysList imgs txts ↔
      hasImageKey imgs k = true ∧ hasTextKey txts k = true := by
  rw [interKeysList, List.mem_filter, hasImageKey_iff, hasTextKey_iff,
    ← mem_dkeys_collect]
  constructor
  · rintro ⟨h1, h2⟩
    refine ⟨h1, ?_⟩
    rw [← mem_dkeys_collect]
    exact (dget_isSome_iff_mem _ _).mp h2
  · rintro ⟨h1, h2⟩
    refine ⟨h1, ?_⟩
    rw [← mem_dkeys_collect] at h2
    exact (dget_isSome_iff_mem _ _).mpr h2

theorem emparejar_map_key (imgs txts : List (List Char)) :
    (emparejar_archivos imgs txts).map (fun p => lowerStr p.nombre)
      = List.insertionSort keyLE (interKeysList imgs txts) := by
  simp only [emparejar_archivos]
  rw [List.map_map]
  refine (List.map_congr_left ?_).trans (List.map_id' _)
  intro n hn
  simp only [Function.comp_apply]
  have hmem : n ∈ interKeysList imgs txts :=
    (List.perm_insertionSort keyLE _).mem_iff.mp hn
  have hkeys : n ∈ dkeys (collect imagePats imgs) :=
    (List.mem_filter.mp hmem).1
  obtain ⟨v, hv⟩ := Option.isSome_iff_exists.mp ((dget_isSome_iff_mem _ _).mpr hkeys)
  show lowerStr (stem ((dget (collect imagePats imgs) n).getD [])) = n
  rw [hv]
  exact (dget_collect_mem _ _ _ _ hv).2

theorem emparejar_length (imgs txts : List (List Char)) :
    (emparejar_archivos imgs txts).length = numCommonKeys imgs txts := by
  have h1 : (emparejar_archivos imgs txts).length =
      ((emparejar_archivos imgs txts).map (fun p => lowerStr p.nombre)).length := by
    rw [List.length_map]
  rw [h1, emparejar_map_key, (List.perm_insertionSort keyLE _).length_eq]
  have hperm : List.Perm (interKeysList imgs txts)
      ((((enumFiles imagePats imgs).map matchKey).dedup).filter (fun k => hasTextKey txts k)) := by
    refine (List.perm_ext_iff_of_nodup (interKeysList_nodup imgs txts)
      (List.Nodup.filter _ (List.nodup_dedup _))).2 ?_
    intro k
    rw [mem_interKeysList, List.mem_filter, List.mem_dedup, List.mem_map, hasImageKey_iff]
  rw [hperm.length_eq]
  rfl

theorem emparejar_record (imgs txts : List (List Char)) (p : PageRecord)
    (hp : p ∈ emparejar_archivos imgs txts) :
    p.nombre = stem p.ruta_img ∧ p.ruta_img ∈ imgs ∧ isImageFile p.ruta_img = true := by
  simp only [emparejar_archivos] at hp
  obtain ⟨n, hn, rfl⟩ := List.mem_map.mp hp
  have hmem : n ∈ interKeysList imgs txts :=
    (List.perm_insertionSort keyLE _).mem_iff.mp hn
  have hkeys : n ∈ dkeys (collect imagePats imgs) :=
    (List.mem_filter.mp hmem).1
  obtain ⟨v, hv⟩ := Option.isSome_iff_exists.mp ((dget_isSome_iff_mem _ _).mpr hkeys)
  obtain ⟨henum, hkey⟩ := dget_collect_mem _ _ _ _ hv
  simp only [enumFiles, List.mem_flatMap] at henum
  obtain ⟨e, he, hve⟩ := henum
  simp only [globFiles, List.mem_filter] at hve
  refine ⟨rfl, ?_, ?_⟩
  · show (dget (collect imagePats imgs) n).getD [] ∈ imgs
    rw [hv]
    exact hve.1
  · show isImageFile ((dget (collect imagePats imgs) n).getD []) = true
    rw [hv]
    simp only [isImageFile, List.any_eq_true]
    exact ⟨e, he, hve.2⟩

/-- Claim C1 (counterexample): with image directory `["A.jpg"]` and text
directory `["a.txt"]`, the intersection of case-folded stems present in
both is `{"a"}`, but the single produced record is named `"A"` — the set
of produced names is not the intersection (names keep the image file's
original casing). -/
theorem claim_C1_counterexample :
    (emparejar_archivos ["A.jpg".toList] ["a.txt".toList]).map PageRecord.nombre
        = ["A".toList]
    ∧ hasImageKey ["A.jpg".toList] ("a".toList) = true
    ∧ hasTextKey ["a.txt".toList] ("a".toList) = true
    ∧ ¬"a".toList ∈
        (emparejar_archivos ["A.jpg".toList] ["a.txt".toList]).map PageRecord.nombre := by
  decide

/-- Claim C1 (amended): for every image directory and text directory,
the set of case-folded produced names (the records' MatchKeys) equals
the intersection of the case-folded stems present in both directories,
the number of records equals that intersection's size, and the key
sequence is sorted lexicographically ascending with no key repeated (a
bijection with the intersection). -/
theorem claim_C1_pairing (imgs txts : List (List Char)) :
    (∀ k, k ∈ (emparejar_archivos imgs txts).map (fun p => lowerStr p.nombre) ↔
        hasImageKey imgs k = true ∧ hasTextKey txts k = true)
    ∧ (emparejar_archivos imgs txts).length = numCommonKeys imgs txts
    ∧ List.Sorted keyLE ((emparejar_archivos imgs txts).map (fun p => lowerStr p.nombre))
    ∧ ((emparejar_archivos imgs txts).map (fun p => lowerStr p.nombre)).Nodup := by
  haveI hTot : IsTotal (List Char) keyLE := ⟨listCharLe_total⟩
  haveI hTrans : IsTrans (List Char) keyLE := ⟨listCharLe_trans⟩
  refine ⟨?_, emparejar_length imgs txts, ?_, ?_⟩
  · intro k
    rw [emparejar_map_key, (List.perm_insertionSort keyLE _).mem_iff, mem_interKeysList]
  · rw [emparejar_map_key]
    exact List.sorted_insertionSort keyLE _
  · rw [emparejar_map_key, (List.perm_insertionSort keyLE _).nodup_iff]
    exact interKeysList_nodup imgs txts

/-- Claim C6: every record's name is the original (non-lower-cased) stem
of the matched image file — a file of the image directory — even though
matching is case-insensitive; and the spec's scenario holds: images
`pagina_001.jpg`, `PAGINA_002.JPG`, `extra.jpg` with texts
`pagina_001.txt`, `pagina_002.txt` produce exactly the two records
`pagina_001` and `PAGINA_002` (image casing preserved), in that order,
with `extra` and the orphan text silently excluded. -/
theorem claim_C6_casing :
    (∀ (imgs txts : List (List Char)) (p : PageRecord),
        p ∈ emparejar_archivos imgs txts →
        p.nombre = stem p.ruta_img ∧ p.ruta_img ∈ imgs ∧ isImageFile p.ruta_img = true)
    ∧ emparejar_archivos demoImgs demoTxts = [demoRec1, demoRec2] :=
  ⟨emparejar_record, by decide⟩

theorem claim_C6_casing_witness :
    demoRec1.nombre = stem demoRec1.ruta_img ∧ demoRec1.ruta_img ∈ demoImgs
    ∧ isImageFile demoRec1.ruta_img = true :=
  claim_C6_casing.1 demoImgs demoTxts demoRec1 (by decide)

/-- Claim C7: when several image files collapse to the same case-folded
stem, the pairer's image map silently keeps the later-enumerated file:
for every image directory and key, the stored path is the last element of
the enumeration whose MatchKey is that key (`none` when no file has it),
with no error raised; in particular `page1.jpg` followed by `PAGE1.JPG`
leaves `PAGE1.JPG` as the stored path for key `page1`. -/
theorem claim_C7_overwrite (imgs : List (List Char)) (k : List Char) :
    dget (collect imagePats imgs) k =
      ((enumFiles imagePats imgs).filter (fun f => decide (matchKey f = k))).getLast?
    ∧ dget (collect imagePats ["page1.jpg".toList, "PAGE1.JPG".toList]) ("page1".toList)
        = some ("PAGE1.JPG".toList) :=
  ⟨dget_collect imagePats imgs k, by decide⟩
